import Mathlib

/-!
Verification development for the GT-NL git assistant.

The definitions below are a shallow embedding of the TypeScript sources:

* `src/core/git/executor.ts` — risk classification of git command strings
  (`validateGitCommand`, `validateGitCommandLocally`) and command execution
  (`executeGitCommand`);
* `src/core/nlp/llm-service.ts` — the LLM-backed risk classifier
  (`analyzeCommandRisk`) and its local fallback (`analyzeCommandRiskLocally`);
* `src/core/workflow/engine.ts` — the workflow engine (`WorkflowEngine`:
  `registerStep`, `getStepById`, `generatePlan`, `processInput` and the
  step loop of `executeWorkflow`);
* the CLI entry (`initCLI`) — the verification-code challenge shown before a
  high-risk command runs.

Effectful external calls (the LLM, the child process, simple-git) are
modelled as oracle inputs; user decisions at interactive prompts are
modelled as decision functions supplied to the run.  Promise rejections /
thrown errors are modelled as `Except` / `Option` error values.
-/

/-! ## Risk model (`executor.ts`, `llm-service.ts`) -/

/-- The `'low' | 'medium' | 'high'` risk level union type. -/
inductive RiskLevel where
  | low
  | medium
  | high
deriving DecidableEq, Repr

/-- `GitCommandRisk` from `executor.ts`. -/
structure GitCommandRisk where
  level : RiskLevel
  description : String
  mitigation : Option String := none
deriving DecidableEq, Repr

/-- The `{riskLevel, explanation}` result of `analyzeCommandRisk` in
`llm-service.ts`. -/
structure RiskAnalysis where
  riskLevel : RiskLevel
  explanation : String
deriving DecidableEq, Repr

/-- `pat` occurs at the front of `s` (helper for substring containment). -/
def subAtFront : List Char → List Char → Bool
  | [], _ => true
  | _ :: _, [] => false
  | c :: cs, x :: xs => c = x && subAtFront cs xs

/-- `pat` occurs somewhere in `s` (helper for substring containment). -/
def listHasSub (pat : List Char) : List Char → Bool
  | [] => subAtFront pat []
  | c :: xs => subAtFront pat (c :: xs) || listHasSub pat xs

/-- JavaScript `s.includes(pat)`: `pat` is a contiguous substring of `s`. -/
def containsSub (s pat : String) : Bool :=
  listHasSub pat.toList s.toList

/-- The high-risk substring table of `validateGitCommandLocally`
(`executor.ts:70-76`). -/
def highRiskPatterns : List String :=
  ["reset --hard", "clean -fd", "push --force", "push -f", "branch -D"]

/-- The medium-risk substring table of `validateGitCommandLocally`
(`executor.ts:79-85`). -/
def mediumRiskPatterns : List String :=
  ["reset", "rebase", "checkout -b", "branch -d", "stash drop"]

/-- `validateGitCommandLocally` (`executor.ts:68-112`).  The source loops
over each table returning on the first `command.includes(pattern)` hit; the
returned record is the same for every pattern of a table, so the loop is
embedded as `List.any`. -/
def validateGitCommandLocally (command : String) : GitCommandRisk :=
  if highRiskPatterns.any (fun pattern => containsSub command pattern) then
    { level := .high
      description := "此命令可能会导致数据丢失"
      mitigation := some "操作前建议先创建备份或检查点" }
  else if mediumRiskPatterns.any (fun pattern => containsSub command pattern) then
    { level := .medium
      description := "此命令会改变仓库状态"
      mitigation := some "注意检查命令影响范围" }
  else
    { level := .low
      description := "此命令风险较低" }

/-- The high-risk pattern/explanation table of `analyzeCommandRiskLocally`
(`llm-service.ts:268-274`). -/
def highRiskPatternsE : List (String × String) :=
  [("reset --hard", "硬重置会丢失所有未提交的修改"),
   ("clean -fd", "强制删除未跟踪的文件和目录"),
   ("push --force", "强制推送可能覆盖远程仓库历史"),
   ("push -f", "强制推送可能覆盖远程仓库历史"),
   ("branch -D", "强制删除分支，即使有未合并的更改")]

/-- The medium-risk pattern/explanation table of `analyzeCommandRiskLocally`
(`llm-service.ts:277-283`). -/
def mediumRiskPatternsE : List (String × String) :=
  [("reset", "重置操作可能会改变工作区状态"),
   ("rebase", "变基操作会重写提交历史"),
   ("checkout -b", "创建并切换分支，暂存区会随之变化"),
   ("branch -d", "删除已合并的分支"),
   ("stash drop", "删除存储的工作状态")]

/-- `analyzeCommandRiskLocally` (`llm-service.ts:263-308`): first matching
high pattern wins, then first matching medium pattern, else low. -/
def analyzeCommandRiskLocally (command : String) : RiskAnalysis :=
  match highRiskPatternsE.find? (fun pe => containsSub command pe.1) with
  | some pe => { riskLevel := .high, explanation := pe.2 }
  | none =>
    match mediumRiskPatternsE.find? (fun pe => containsSub command pe.1) with
    | some pe => { riskLevel := .medium, explanation := pe.2 }
    | none => { riskLevel := .low, explanation := "此命令是安全操作，不会导致数据丢失" }

/-- Oracle for the effectful LLM boundary.  `apiKeyPresent` is the value
`initLLMService()` resolves to (`!!API_KEY`); `remoteRisk` is the outcome of
the remote model call inside `analyzeCommandRisk`: `some r` when the call
and the structured-output parse succeed, `none` when they throw. -/
structure LLMEnv where
  apiKeyPresent : Bool
  remoteRisk : Option RiskAnalysis

/-- `analyzeCommandRisk` (`llm-service.ts:186-256`): without an API key it
answers locally; a remote failure is caught and also falls back to
`analyzeCommandRiskLocally`. -/
def analyzeCommandRisk (env : LLMEnv) (command : String) : RiskAnalysis :=
  if !env.apiKeyPresent then
    analyzeCommandRiskLocally command
  else
    match env.remoteRisk with
    | some r => r
    | none => analyzeCommandRiskLocally command

/-- `validateGitCommand` (`executor.ts:30-61`): when `initLLMService()`
reports the LLM available, consult `analyzeCommandRisk` (whose own failures
already degrade to the local rules) and wrap the analysis; otherwise use
`validateGitCommandLocally` directly. -/
def validateGitCommand (env : LLMEnv) (command : String) : GitCommandRisk :=
  if env.apiKeyPresent then
    let riskAnalysis := analyzeCommandRisk env command
    { level := riskAnalysis.riskLevel
      description := riskAnalysis.explanation
      mitigation :=
        if riskAnalysis.riskLevel != .low then
          some "操作前建议先确认命令影响范围或创建备份"
        else none }
  else
    validateGitCommandLocally command

/-! ## Workflow engine (`engine.ts`)

The engine state is threaded explicitly: `σ` is the type of the mutable
`context.data` key-value store that the step actions read and write through
`addToContext` / `getFromContext`.  A step's `execute(context)` is embedded
as `σ → σ × Option String`: the updated store plus `some message` when the
action threw (reference mutation performed before the throw is kept, as in
the source).  `shouldSkip(context)` becomes `σ → Bool`.  User decisions at
the two interactive prompts are supplied as functions of the step index. -/

/-- The three choices of the pre-step prompt (`engine.ts:147-151`). -/
inductive Decision where
  | continueStep
  | skipStep
  | exitWorkflow
deriving DecidableEq, Repr

/-- The two choices of the post-failure prompt (`engine.ts:175-178`). -/
inductive ErrDecision where
  | continueRun
  | exitRun
deriving DecidableEq, Repr

/-- The `default: 'exit'` of the post-failure prompt (`engine.ts:179`). -/
def errorPromptDefaultChoice : ErrDecision := .exitRun

/-- How one visited step was settled by the loop. -/
inductive StepStatus where
  | skippedPred     -- `shouldSkip` evaluated true (`engine.ts:132-135`)
  | skippedUser     -- the user chose skip (`engine.ts:154-156`)
  | completed       -- the action returned (`engine.ts:165-166`)
  | failedContinue  -- the action threw, user chose continue (`engine.ts:182`)
  | failedExit      -- the action threw, user chose exit: `break` (`engine.ts:184`)
  | userExit        -- the user chose exit at the prompt: `return` (`engine.ts:157-159`)
deriving DecidableEq, Repr

/-- `status` is one of the three settled-and-advanced outcomes. -/
def StepStatus.isSettled : StepStatus → Bool
  | .skippedPred => true
  | .skippedUser => true
  | .completed => true
  | .failedContinue => true
  | .failedExit => false
  | .userExit => false

/-- One loop iteration observed: the cursor value (`currentStepIndex`) and
how the step at that cursor was handled. -/
structure StepEvent where
  index : Nat
  status : StepStatus
deriving DecidableEq, Repr

/-- How the run left the step loop. -/
inductive RunEnd where
  | completedAll            -- the `for` loop exhausted the steps
  | userExited (k : Nat)    -- `return` at step k (`engine.ts:159`)
  | abortedOnError (k : Nat) -- `break` at step k (`engine.ts:184`)
deriving DecidableEq, Repr

/-- `WorkflowStep` (`engine.ts:11-18`). -/
structure WorkflowStep (σ : Type) where
  id : String
  name : String := ""
  description : String := ""
  execute : σ → σ × Option String
  shouldSkip : Option (σ → Bool) := none
  requiresUserInput : Bool := false

/-- The observable outcome of the `executeWorkflow` step loop: the trace of
visited cursors, the final `context.data`, and how the loop ended. -/
structure RunResult (σ : Type) where
  trace : List StepEvent
  data : σ
  ending : RunEnd

/-- `step.shouldSkip && await step.shouldSkip(context)` (`engine.ts:132`). -/
def shouldSkipEval {σ : Type} (step : WorkflowStep σ) (d : σ) : Bool :=
  match step.shouldSkip with
  | some p => p d
  | none => false

/-- The `for` loop of `executeWorkflow` (`engine.ts:127-187`), recursing over
the remaining steps; `i` is `currentStepIndex`, `d` is `context.data`,
`u`/`e` give the user's choice at the pre-step and post-failure prompts of
step `i`.  A step that does not `requiresUserInput` proceeds as if
`continueStep` were chosen (no prompt is shown). -/
def executeWorkflowLoop {σ : Type} (u : Nat → Decision) (e : Nat → ErrDecision) :
    List (WorkflowStep σ) → Nat → σ → RunResult σ
  | [], _, d => { trace := [], data := d, ending := .completedAll }
  | step :: rest, i, d =>
    if shouldSkipEval step d then
      let r := executeWorkflowLoop u e rest (i + 1) d
      { trace := ⟨i, .skippedPred⟩ :: r.trace, data := r.data, ending := r.ending }
    else
      match (if step.requiresUserInput then u i else .continueStep) with
      | .skipStep =>
        let r := executeWorkflowLoop u e rest (i + 1) d
        { trace := ⟨i, .skippedUser⟩ :: r.trace, data := r.data, ending := r.ending }
      | .exitWorkflow =>
        { trace := [⟨i, .userExit⟩], data := d, ending := .userExited i }
      | .continueStep =>
        match step.execute d with
        | (d', none) =>
          let r := executeWorkflowLoop u e rest (i + 1) d'
          { trace := ⟨i, .completed⟩ :: r.trace, data := r.data, ending := r.ending }
        | (d', some _msg) =>
          match e i with
          | .continueRun =>
            let r := executeWorkflowLoop u e rest (i + 1) d'
            { trace := ⟨i, .failedContinue⟩ :: r.trace, data := r.data, ending := r.ending }
          | .exitRun =>
            { trace := [⟨i, .failedExit⟩], data := d', ending := .abortedOnError i }

/-- A full `executeWorkflow` call: the loop result plus whether the final
`'所有步骤已完成!'` line (`engine.ts:189`) ran.  `return` inside the loop
skips it; falling out of the loop or leaving it via `break` reaches it. -/
structure WorkflowRun (σ : Type) where
  result : RunResult σ
  completionMessageShown : Bool

/-- `executeWorkflow` (`engine.ts:125-190`). -/
def executeWorkflow {σ : Type} (u : Nat → Decision) (e : Nat → ErrDecision)
    (steps : List (WorkflowStep σ)) (d : σ) : WorkflowRun σ :=
  let r := executeWorkflowLoop u e steps 0 d
  { result := r
    completionMessageShown :=
      match r.ending with
      | .userExited _ => false
      | _ => true }

/-! ### Step registry and plan resolution -/

/-- The `registeredSteps : Map<string, WorkflowStep>` of the engine,
embedded as an association list with JavaScript `Map` set/get semantics. -/
abbrev Registry (σ : Type) := List (String × WorkflowStep σ)

/-- JavaScript `Map.set`: overwrite the binding in place, else append. -/
def mapSet {α : Type} : List (String × α) → String → α → List (String × α)
  | [], k, v => [(k, v)]
  | (k', v') :: rest, k, v =>
    if k' = k then (k, v) :: rest else (k', v') :: mapSet rest k v

/-- JavaScript `Map.get`: the first (unique) binding of `k`, if any. -/
def mapGet {α : Type} : List (String × α) → String → Option α
  | [], _ => none
  | (k', v') :: rest, k => if k' = k then some v' else mapGet rest k

/-- `registerStep` (`engine.ts:47-49`). -/
def registerStep {σ : Type} (reg : Registry σ) (step : WorkflowStep σ) : Registry σ :=
  mapSet reg step.id step

/-- `getStepById` (`engine.ts:56-58`). -/
def getStepById {σ : Type} (reg : Registry σ) (id : String) : Option (WorkflowStep σ) :=
  mapGet reg id

/-- `WorkflowPlan` (`engine.ts:31-34`). -/
structure WorkflowPlan (σ : Type) where
  steps : List (WorkflowStep σ)
  summary : String

/-- `generatePlan` (`engine.ts:106-119`): map each planned id through the
registry and keep the hits (`.map(getStepById).filter(step => !!step)`).
The id list and summary are the resolver's `{steps, summary}` output. -/
def generatePlan {σ : Type} (reg : Registry σ) (planSteps : List String)
    (summary : String) : WorkflowPlan σ :=
  { steps := (planSteps.map (fun stepId => getStepById reg stepId)).filterMap id
    summary := summary }

/-- The observable outcome of `processInput`: either the early return taken
when the resolved plan is empty (`engine.ts:71-74`) — no context is built
and no step runs — or a workflow run. -/
inductive ProcessOutcome (σ : Type) where
  | noPlan
  | ran (run : WorkflowRun σ)

/-- `processInput` (`engine.ts:64-99`).  `planResult` is the id list and
summary returned by the external plan resolver for `input`; `d₀` stands for
the fresh `data: {}` store of the context built at `engine.ts:82-91`. -/
def processInput {σ : Type} (reg : Registry σ) (planResult : List String × String)
    (u : Nat → Decision) (e : Nat → ErrDecision) (_input : String) (d₀ : σ) :
    ProcessOutcome σ :=
  let plan := generatePlan reg planResult.1 planResult.2
  if plan.steps.length = 0 then .noPlan
  else .ran (executeWorkflow u e plan.steps d₀)

/-! ## High-risk confirmation challenge (CLI entry, `initCLI`)

Before a command classified `high` runs, the CLI generates
`Math.floor(1000 + Math.random() * 9000).toString()` and prompts for it with
`validate: (input) => input === verificationCode ? true : '验证码不正确…'`;
the prompt library re-asks while `validate` is not `true`. -/

/-- The generated code.  `r` models `Math.floor(Math.random() * 9000)`, an
integer in `[0, 8999]`; the code is `(1000 + r).toString()`. -/
def verificationCode (r : Nat) : String :=
  Nat.repr (1000 + r)

/-- The `validate` callback of the verification prompt: accept exactly the
generated code (the source returns an error string otherwise, which the
prompt treats as rejection). -/
def verificationValidate (code : String) (input : String) : Bool :=
  input = code

/-- The prompt's validate-retry behaviour: successive user attempts are
rejected until one passes `validate`; the first passing attempt is returned.
`none` models a user who never supplies a passing value (the real prompt
would still be waiting, and the command would not have run). -/
def promptValidate (validate : String → Bool) : List String → Option String
  | [] => none
  | a :: rest => if validate a then some a else promptValidate validate rest

/-- The whole challenge for one generated code: the accepted retyped value,
if any.  Only after this returns `some` does the CLI proceed towards
executing the high-risk command. -/
def highRiskChallenge (code : String) (attempts : List String) : Option String :=
  promptValidate (verificationValidate code) attempts

/-! ## Command execution (`executeGitCommand`, `executor.ts:142-240`) -/

/-- `ExecutionResult` (`executor.ts:13-17`). -/
structure ExecutionResult where
  success : Bool
  output : Option String := none
  error : Option String := none
deriving DecidableEq, Repr

/-- Oracle for the external calls `executeGitCommand` makes: the LLM
boundary, `getGitDiff()` (which returns `''` on its own failures),
`generateCommitMessage(diff)` (may throw), `git.raw(parts)` (resolves to the
command's stdout or rejects), and `execPromise(cmd)` (resolves to
`{stdout, stderr}` or rejects with an error whose message is carried). -/
structure ExecEnv where
  llm : LLMEnv
  gitDiff : String
  commitMessage : Except String String
  gitRaw : List String → Except String String
  execCmd : String → Except String (String × String)

/-- `error.message || '执行命令失败'` of the catch-all (`executor.ts:234-239`). -/
def errMessage (e : String) : String :=
  if e = "" then "执行命令失败" else e

/-- `executeGitCommand` (`executor.ts:142-240`).  The backup-point block
(`executor.ts:189-200`) only logs and swallows its own errors, so it has no
observable effect here.  The unused risk validation at `executor.ts:144`
cannot throw (`validateGitCommand` catches everything). -/
def executeGitCommand (env : ExecEnv) (command : String) : ExecutionResult :=
  let _risk := validateGitCommand env.llm command
  if command.startsWith "git " then
    let gitCommand := command.drop 4
    let gitCommandParts := gitCommand.splitOn " "
    let mainCommand := gitCommandParts.headD ""
    -- `commit` with no message: try to auto-generate one via the LLM
    -- (`executor.ts:158-187`); any throw inside is caught and the original
    -- command proceeds.
    let autoCommit : Option ExecutionResult :=
      if mainCommand = "commit" && !containsSub gitCommand "-m"
          && !containsSub gitCommand "--message" then
        if env.llm.apiKeyPresent then
          if env.gitDiff ≠ "" then
            match env.commitMessage with
            | .ok msg =>
              match env.gitRaw ["commit", "-m", msg] with
              | .ok result =>
                some { success := true
                       output := some (if result = "" then
                         "已提交，消息: \"" ++ msg ++ "\"" else result) }
              | .error _ => none
            | .error _ => none
          else none
        else none
      else none
    match autoCommit with
    | some res => res
    | none =>
      -- `status` goes through `execPromise` keeping only stdout
      -- (`executor.ts:206-209`); other git commands through `git.raw`
      -- (`executor.ts:212`); a rejection reaches the outer catch.
      let rawResult : Except String String :=
        if mainCommand = "status" then
          match env.execCmd "git status" with
          | .ok out => .ok out.1
          | .error e => .error e
        else env.gitRaw gitCommandParts
      match rawResult with
      | .ok result =>
        { success := true
          output := some (if result = "" then "命令已执行，无输出结果" else result) }
      | .error e => { success := false, error := some (errMessage e) }
  else
    -- non-git command via `execPromise` (`executor.ts:221-233`)
    match env.execCmd command with
    | .ok out =>
      if out.2 ≠ "" && out.1 = "" then
        { success := false, error := some out.2 }
      else
        { success := true
          output := some (if out.1 = "" then "命令已执行，无输出结果" else out.1) }
    | .error e => { success := false, error := some (errMessage e) }

/-! ## Concrete fixtures used by witnesses -/

/-- A step whose action succeeds and mutates the store. -/
def stepOk : WorkflowStep Nat :=
  { id := "git-status", execute := fun d => (d + 1, none) }

/-- A step whose action mutates the store and then throws. -/
def stepFailing : WorkflowStep Nat :=
  { id := "git-add", execute := fun d => (d + 10, some "添加文件失败") }

/-- A step that requires interactive confirmation. -/
def stepConfirm : WorkflowStep Nat :=
  { id := "git-commit", execute := fun d => (d + 100, none), requiresUserInput := true }

/-- A step with a skip predicate reading the store. -/
def stepSkippable : WorkflowStep Nat :=
  { id := "git-push", execute := fun d => (d + 1000, none),
    shouldSkip := some (fun d => d != 0) }

/-- User always chooses to continue at the pre-step prompt. -/
def userContinue : Nat → Decision := fun _ => .continueStep

/-- User always chooses to exit at the pre-step prompt. -/
def userExitAll : Nat → Decision := fun _ => .exitWorkflow

/-- User always continues after a failure. -/
def errContinue : Nat → ErrDecision := fun _ => .continueRun

/-- User always exits after a failure. -/
def errExit : Nat → ErrDecision := fun _ => .exitRun

/-- A concrete execution environment: no LLM, and a child process that
writes only to stderr. -/
def execEnvStderr : ExecEnv :=
  { llm := ⟨false, none⟩
    gitDiff := ""
    commitMessage := .error "服务不可用"
    gitRaw := fun _ => .ok ""
    execCmd := fun _ => .ok ("", "命令未找到") }

/-! ## Structural lemmas about the step loop -/

theorem executeWorkflowLoop_indices {σ : Type} (u : Nat → Decision) (e : Nat → ErrDecision)
    (steps : List (WorkflowStep σ)) (i : Nat) (d : σ) :
    (executeWorkflowLoop u e steps i d).trace.map StepEvent.index
      = List.range' i (executeWorkflowLoop u e steps i d).trace.length := by
  induction steps generalizing i d with
  | nil => rfl
  | cons step rest ih =>
    simp only [executeWorkflowLoop]
    split
    · simpa [List.range'_succ] using ih (i + 1) d
    · split
      · simpa [List.range'_succ] using ih (i + 1) d
      · simp [List.range'_succ]
      · split
        · simpa [List.range'_succ] using ih (i + 1) _
        · split
          · simpa [List.range'_succ] using ih (i + 1) _
          · simp [List.range'_succ]

theorem executeWorkflowLoop_length_le {σ : Type} (u : Nat → Decision) (e : Nat → ErrDecision)
    (steps : List (WorkflowStep σ)) (i : Nat) (d : σ) :
    (executeWorkflowLoop u e steps i d).trace.length ≤ steps.length := by
  induction steps generalizing i d with
  | nil => simp [executeWorkflowLoop]
  | cons step rest ih =>
    simp only [executeWorkflowLoop]
    split
    · simpa using ih (i + 1) d
    · split
      · simpa using ih (i + 1) d
      · simp
      · split
        · simpa using ih (i + 1) _
        · split
          · simpa using ih (i + 1) _
          · simp

theorem executeWorkflowLoop_completedAll_iff {σ : Type} (u : Nat → Decision)
    (e : Nat → ErrDecision) (steps : List (WorkflowStep σ)) (i : Nat) (d : σ) :
    (executeWorkflowLoop u e steps i d).ending = .completedAll ↔
      ((executeWorkflowLoop u e steps i d).trace.length = steps.length ∧
       ∀ ev ∈ (executeWorkflowLoop u e steps i d).trace, ev.status.isSettled = true) := by
  induction steps generalizing i d with
  | nil => simp [executeWorkflowLoop]
  | cons step rest ih =>
    by_cases hs : shouldSkipEval step d
    · simp [executeWorkflowLoop, hs, ih, StepStatus.isSettled]
    · rcases hdec : (if step.requiresUserInput then u i else Decision.continueStep) with _ | _ | _
      · rcases hex : step.execute d with ⟨d', m⟩
        rcases m with _ | msg
        · simp [executeWorkflowLoop, hs, hdec, hex, ih, StepStatus.isSettled]
        · rcases he : e i with _ | _
          · simp [executeWorkflowLoop, hs, hdec, hex, he, ih, StepStatus.isSettled]
          · simp [executeWorkflowLoop, hs, hdec, hex, he, StepStatus.isSettled]
      · simp [executeWorkflowLoop, hs, hdec, ih, StepStatus.isSettled]
      · simp [executeWorkflowLoop, hs, hdec, StepStatus.isSettled]

theorem executeWorkflowLoop_early {σ : Type} (u : Nat → Decision) (e : Nat → ErrDecision)
    (steps : List (WorkflowStep σ)) (i : Nat) (d : σ) (k : Nat)
    (h : (executeWorkflowLoop u e steps i d).ending = .userExited k ∨
         (executeWorkflowLoop u e steps i d).ending = .abortedOnError k) :
    (executeWorkflowLoop u e steps i d).trace ≠ [] ∧
    i + (executeWorkflowLoop u e steps i d).trace.length = k + 1 ∧
    ∀ ev ∈ (executeWorkflowLoop u e steps i d).trace.dropLast, ev.status.isSettled = true := by
  induction steps generalizing i d with
  | nil => simp [executeWorkflowLoop] at h
  | cons step rest ih =>
    by_cases hs : shouldSkipEval step d
    · simp only [executeWorkflowLoop] at h ⊢
      simp only [hs, if_pos] at h ⊢
      obtain ⟨hne, hlen, hset⟩ := ih (i + 1) d h
      refine ⟨by simp, by simp; omega, ?_⟩
      simp only [List.dropLast_cons_of_ne_nil hne, List.forall_mem_cons]
      exact ⟨rfl, hset⟩
    · simp only [executeWorkflowLoop] at h ⊢
      simp only [hs, if_neg, Bool.false_eq_true, if_false] at h ⊢
      rcases hdec : (if step.requiresUserInput then u i else Decision.continueStep) with _ | _ | _ <;>
        simp only [hdec] at h ⊢
      · rcases hex : step.execute d with ⟨d', m⟩
        rcases m with _ | msg <;> simp only [hex] at h ⊢
        · obtain ⟨hne, hlen, hset⟩ := ih (i + 1) d' h
          refine ⟨by simp, by simp; omega, ?_⟩
          simp only [List.dropLast_cons_of_ne_nil hne, List.forall_mem_cons]
          exact ⟨rfl, hset⟩
        · rcases he : e i with _ | _ <;> simp only [he] at h ⊢
          · obtain ⟨hne, hlen, hset⟩ := ih (i + 1) d' h
            refine ⟨by simp, by simp; omega, ?_⟩
            simp only [List.dropLast_cons_of_ne_nil hne, List.forall_mem_cons]
            exact ⟨rfl, hset⟩
          · simp only [RunEnd.abortedOnError.injEq, reduceCtorEq, false_or] at h
            subst h
            simp
      · obtain ⟨hne, hlen, hset⟩ := ih (i + 1) d h
        refine ⟨by simp, by simp; omega, ?_⟩
        simp only [List.dropLast_cons_of_ne_nil hne, List.forall_mem_cons]
        exact ⟨rfl, hset⟩
      · simp only [RunEnd.userExited.injEq, reduceCtorEq, or_false] at h
        subst h
        simp

theorem executeWorkflowLoop_append_of_early {σ : Type} (u : Nat → Decision)
    (e : Nat → ErrDecision) (steps extra : List (WorkflowStep σ)) (i : Nat) (d : σ)
    (h : (executeWorkflowLoop u e steps i d).ending ≠ .completedAll) :
    executeWorkflowLoop u e (steps ++ extra) i d = executeWorkflowLoop u e steps i d := by
  induction steps generalizing i d with
  | nil => simp [executeWorkflowLoop] at h
  | cons step rest ih =>
    by_cases hs : shouldSkipEval step d
    · have h' : (executeWorkflowLoop u e rest (i + 1) d).ending ≠ .completedAll := by
        simpa [executeWorkflowLoop, hs] using h
      simp [executeWorkflowLoop, hs, ih (i + 1) d h']
    · rcases hdec : (if step.requiresUserInput then u i else Decision.continueStep) with _ | _ | _
      · rcases hex : step.execute d with ⟨d', m⟩
        rcases m with _ | msg
        · have h' : (executeWorkflowLoop u e rest (i + 1) d').ending ≠ .completedAll := by
            simpa [executeWorkflowLoop, hs, hdec, hex] using h
          simp [executeWorkflowLoop, hs, hdec, hex, ih (i + 1) d' h']
        · rcases he : e i with _ | _
          · have h' : (executeWorkflowLoop u e rest (i + 1) d').ending ≠ .completedAll := by
              simpa [executeWorkflowLoop, hs, hdec, hex, he] using h
            simp [executeWorkflowLoop, hs, hdec, hex, he, ih (i + 1) d' h']
          · simp [executeWorkflowLoop, hs, hdec, hex, he]
      · have h' : (executeWorkflowLoop u e rest (i + 1) d).ending ≠ .completedAll := by
          simpa [executeWorkflowLoop, hs, hdec] using h
        simp [executeWorkflowLoop, hs, hdec, ih (i + 1) d h']
      · simp [executeWorkflowLoop, hs, hdec]

theorem executeWorkflowLoop_congr_user {σ : Type} (u u' : Nat → Decision)
    (e : Nat → ErrDecision) (steps : List (WorkflowStep σ)) (i : Nat) (d : σ)
    (h : ∀ j, i ≤ j → u j = u' j) :
    executeWorkflowLoop u e steps i d = executeWorkflowLoop u' e steps i d := by
  induction steps generalizing i d with
  | nil => rfl
  | cons step rest ih =>
    have hrest : ∀ j, i + 1 ≤ j → u j = u' j := fun j hj => h j (Nat.le_of_succ_le hj)
    have hu : (if step.requiresUserInput then u i else Decision.continueStep)
        = (if step.requiresUserInput then u' i else Decision.continueStep) := by
      rw [h i (Nat.le_refl i)]
    by_cases hs : shouldSkipEval step d
    · simp [executeWorkflowLoop, hs, ih (i + 1) d hrest]
    · rcases hdec : (if step.requiresUserInput then u' i else Decision.continueStep) with _ | _ | _
      · rcases hex : step.execute d with ⟨d', m⟩
        rcases m with _ | msg
        · simp [executeWorkflowLoop, hs, hu.trans hdec, hdec, hex, ih (i + 1) d' hrest]
        · rcases he : e i with _ | _
          · simp [executeWorkflowLoop, hs, hu.trans hdec, hdec, hex, he, ih (i + 1) d' hrest]
          · simp [executeWorkflowLoop, hs, hu.trans hdec, hdec, hex, he]
      · simp [executeWorkflowLoop, hs, hu.trans hdec, hdec, ih (i + 1) d hrest]
      · simp [executeWorkflowLoop, hs, hu.trans hdec, hdec]

/-! ## Bridging lemmas for the two local classifiers -/

theorem highRiskPatternsE_fst : highRiskPatternsE.map Prod.fst = highRiskPatterns := by
  rfl

theorem mediumRiskPatternsE_fst : mediumRiskPatternsE.map Prod.fst = mediumRiskPatterns := by
  rfl

theorem anyE_iff_find (c : String) (l : List (String × String)) :
    (l.map Prod.fst).any (fun p => containsSub c p) = true ↔
      ((l.find? (fun pe => containsSub c pe.1)).isSome = true) := by
  rw [List.any_eq_true, List.find?_isSome]
  constructor
  · rintro ⟨p, hp, hc⟩
    obtain ⟨pe, hpe, rfl⟩ := List.mem_map.mp hp
    exact ⟨pe, hpe, hc⟩
  · rintro ⟨pe, hpe, hc⟩
    exact ⟨pe.1, List.mem_map.mpr ⟨pe, hpe, rfl⟩, hc⟩

theorem findE_eq_none (c : String) (l : List (String × String))
    (h : (l.map Prod.fst).any (fun p => containsSub c p) = false) :
    l.find? (fun pe => containsSub c pe.1) = none := by
  rw [← Option.not_isSome_iff_eq_none]
  intro hsome
  rw [← anyE_iff_find] at hsome
  rw [h] at hsome
  cases hsome

/-- The risk level computed by `analyzeCommandRiskLocally` coincides with
the one computed by `validateGitCommandLocally` for every command: the two
local rule tables share their pattern strings. -/
theorem localLevels_agree (c : String) :
    (validateGitCommandLocally c).level = (analyzeCommandRiskLocally c).riskLevel := by
  by_cases hh : highRiskPatterns.any (fun p => containsSub c p)
  · have : ((highRiskPatternsE.find? (fun pe => containsSub c pe.1)).isSome = true) := by
      rw [← anyE_iff_find, highRiskPatternsE_fst]
      exact hh
    obtain ⟨pe, hpe⟩ := Option.isSome_iff_exists.mp this
    simp [validateGitCommandLocally, analyzeCommandRiskLocally, hh, hpe]
  · have hh' : highRiskPatterns.any (fun p => containsSub c p) = false :=
      Bool.not_eq_true _ ▸ Bool.of_not_eq_true hh
    have hnone : highRiskPatternsE.find? (fun pe => containsSub c pe.1) = none :=
      findE_eq_none c _ (highRiskPatternsE_fst.symm ▸ hh')
    by_cases hm : mediumRiskPatterns.any (fun p => containsSub c p)
    · have : ((mediumRiskPatternsE.find? (fun pe => containsSub c pe.1)).isSome = true) := by
        rw [← anyE_iff_find, mediumRiskPatternsE_fst]
        exact hm
      obtain ⟨pe, hpe⟩ := Option.isSome_iff_exists.mp this
      simp [validateGitCommandLocally, analyzeCommandRiskLocally, hh', hm, hnone, hpe]
    · have hm' : mediumRiskPatterns.any (fun p => containsSub c p) = false :=
        Bool.not_eq_true _ ▸ Bool.of_not_eq_true hm
      have hmnone : mediumRiskPatternsE.find? (fun pe => containsSub c pe.1) = none :=
        findE_eq_none c _ (mediumRiskPatternsE_fst.symm ▸ hm')
      simp [validateGitCommandLocally, analyzeCommandRiskLocally, hh', hm', hnone, hmnone]

/-! ## Plan-resolution helper lemmas -/

theorem generatePlan_steps {σ : Type} (reg : Registry σ) (ids : List String) (s : String) :
    (generatePlan reg ids s).steps = ids.filterMap (fun stepId => getStepById reg stepId) := by
  simp [generatePlan, List.filterMap_map, Function.comp]

theorem generatePlan_empty_of_all_unknown {σ : Type} (reg : Registry σ) (ids : List String)
    (s : String) (h : ∀ idv ∈ ids, getStepById reg idv = none) :
    (generatePlan reg ids s).steps = [] := by
  rw [generatePlan_steps]
  exact List.filterMap_eq_nil_iff.mpr h

/-! ## Helper lemmas for the validate-retry prompt -/

theorem promptValidate_sound (validate : String → Bool) (attempts : List String) (a : String)
    (h : promptValidate validate attempts = some a) : validate a = true := by
  induction attempts with
  | nil => simp [promptValidate] at h
  | cons b rest ih =>
    by_cases hv : validate b
    · simp only [promptValidate, hv, if_pos, Option.some.injEq] at h
      rwa [← h]
    · simp only [promptValidate, hv, Bool.false_eq_true, if_false] at h
      exact ih h

theorem promptValidate_none (validate : String → Bool) (attempts : List String)
    (h : ∀ a ∈ attempts, validate a = false) :
    promptValidate validate attempts = none := by
  induction attempts with
  | nil => rfl
  | cons b rest ih =>
    have hb : validate b = false := h b (List.mem_cons_self b rest)
    simp only [promptValidate, hb, Bool.false_eq_true, if_false]
    exact ih (fun a ha => h a (List.mem_cons_of_mem b ha))

/-! ## Claim theorems -/

/-- Claim C1: over any run of the step loop the cursor (`currentStepIndex`)
is strictly increasing (hence non-decreasing) — the visited cursor values
are exactly `0, 1, …, len-1`; the run ends normally exactly when every step
was visited and each visited step was settled as skipped, completed or
failed-then-continued; and when the run ends early at step `k` the trace
stops at cursor `k`, all steps before `k` were settled, and no step after
`k` is ever visited. -/
theorem c1_cursor_monotone_and_settled {σ : Type} (u : Nat → Decision) (e : Nat → ErrDecision)
    (steps : List (WorkflowStep σ)) (d : σ) :
    ((executeWorkflowLoop u e steps 0 d).trace.map StepEvent.index).Pairwise (· < ·) ∧
    (executeWorkflowLoop u e steps 0 d).trace.map StepEvent.index
      = List.range' 0 (executeWorkflowLoop u e steps 0 d).trace.length ∧
    (executeWorkflowLoop u e steps 0 d).trace.length ≤ steps.length ∧
    ((executeWorkflowLoop u e steps 0 d).ending = .completedAll ↔
      ((executeWorkflowLoop u e steps 0 d).trace.length = steps.length ∧
       ∀ ev ∈ (executeWorkflowLoop u e steps 0 d).trace, ev.status.isSettled = true)) ∧
    (∀ k, ((executeWorkflowLoop u e steps 0 d).ending = .userExited k ∨
           (executeWorkflowLoop u e steps 0 d).ending = .abortedOnError k) →
      (executeWorkflowLoop u e steps 0 d).trace.length = k + 1 ∧
      (∀ ev ∈ (executeWorkflowLoop u e steps 0 d).trace.dropLast, ev.status.isSettled = true) ∧
      (∀ ev ∈ (executeWorkflowLoop u e steps 0 d).trace, ev.index ≤ k)) := by
  refine ⟨?_, executeWorkflowLoop_indices u e steps 0 d,
    executeWorkflowLoop_length_le u e steps 0 d,
    executeWorkflowLoop_completedAll_iff u e steps 0 d, ?_⟩
  · rw [executeWorkflowLoop_indices]
    exact List.pairwise_lt_range' _ _
  · intro k hk
    obtain ⟨hne, hlen, hset⟩ := executeWorkflowLoop_early u e steps 0 d k hk
    refine ⟨by omega, hset, ?_⟩
    intro ev hev
    have hmem : ev.index ∈ (executeWorkflowLoop u e steps 0 d).trace.map StepEvent.index :=
      List.mem_map.mpr ⟨ev, hev, rfl⟩
    rw [executeWorkflowLoop_indices] at hmem
    obtain ⟨t, ht, hidx⟩ := List.mem_range'.mp hmem
    omega

/-- Claim C1 witness: a concrete three-step run whose second step fails and
is aborted visits only cursors 0 and 1. -/
theorem c1_witness :
    (executeWorkflowLoop userContinue errExit [stepOk, stepFailing, stepOk] 0 0).ending
        = .abortedOnError 1 ∧
    (executeWorkflowLoop userContinue errExit [stepOk, stepFailing, stepOk] 0 0).trace.length = 2 ∧
    (∀ ev ∈ (executeWorkflowLoop userContinue errExit [stepOk, stepFailing, stepOk] 0 0).trace,
      ev.index ≤ 1) := by
  have hend : (executeWorkflowLoop userContinue errExit [stepOk, stepFailing, stepOk] 0
      (0 : Nat)).ending = .abortedOnError 1 := by decide
  obtain ⟨-, -, -, -, hearly⟩ :=
    c1_cursor_monotone_and_settled userContinue errExit [stepOk, stepFailing, stepOk] 0
  obtain ⟨hlen, -, hbound⟩ := hearly 1 (Or.inr hend)
  exact ⟨hend, hlen, hbound⟩

/-- Claim C2: when the user decision ends the run at step `k` (pre-step
Exit or post-failure Exit), no visited step has cursor above `k`, and
appending any further steps to the plan changes nothing about the run:
their actions never execute and the final context data is unchanged. -/
theorem c2_exit_prevents_later_steps {σ : Type} (u : Nat → Decision) (e : Nat → ErrDecision)
    (steps : List (WorkflowStep σ)) (d : σ) (k : Nat)
    (h : (executeWorkflowLoop u e steps 0 d).ending = .userExited k ∨
         (executeWorkflowLoop u e steps 0 d).ending = .abortedOnError k) :
    (∀ ev ∈ (executeWorkflowLoop u e steps 0 d).trace, ev.index ≤ k) ∧
    ∀ extra, executeWorkflowLoop u e (steps ++ extra) 0 d = executeWorkflowLoop u e steps 0 d := by
  constructor
  · intro ev hev
    obtain ⟨hne, hlen, -⟩ := executeWorkflowLoop_early u e steps 0 d k h
    have hmem : ev.index ∈ (executeWorkflowLoop u e steps 0 d).trace.map StepEvent.index :=
      List.mem_map.mpr ⟨ev, hev, rfl⟩
    rw [executeWorkflowLoop_indices] at hmem
    obtain ⟨t, ht, hidx⟩ := List.mem_range'.mp hmem
    omega
  · intro extra
    refine executeWorkflowLoop_append_of_early u e steps extra 0 d ?_
    rcases h with h | h <;> simp [h]

/-- Claim C2 witness: exiting at the confirmation prompt of the first step
makes any appended steps irrelevant to the run. -/
theorem c2_witness :
    (executeWorkflowLoop userExitAll errExit [stepConfirm] 0 0).ending = .userExited 0 ∧
    executeWorkflowLoop userExitAll errExit ([stepConfirm] ++ [stepOk, stepFailing]) 0 0
      = executeWorkflowLoop userExitAll errExit [stepConfirm] 0 0 := by
  have hend : (executeWorkflowLoop userExitAll errExit [stepConfirm] 0 (0 : Nat)).ending
      = .userExited 0 := by decide
  exact ⟨hend,
    (c2_exit_prevents_later_steps userExitAll errExit [stepConfirm] 0 0
      (Or.inl hend)).2 [stepOk, stepFailing]⟩

/-- Claim C4: a step action that throws is handled at the per-step boundary
— the loop result is still defined and the prompt's default decision is
exit; choosing continue advances the run to the next step (keeping the
mutated data), while choosing exit ends the run at that step with nothing
further executed. -/
theorem c4_step_failure_decision {σ : Type} (u : Nat → Decision) (e : Nat → ErrDecision)
    (step : WorkflowStep σ) (rest : List (WorkflowStep σ)) (i : Nat) (d d' : σ) (msg : String)
    (hskip : shouldSkipEval step d = false)
    (hdec : step.requiresUserInput = false ∨ u i = .continueStep)
    (hexec : step.execute d = (d', some msg)) :
    errorPromptDefaultChoice = .exitRun ∧
    (e i = .continueRun →
      executeWorkflowLoop u e (step :: rest) i d =
        { trace := ⟨i, .failedContinue⟩ :: (executeWorkflowLoop u e rest (i + 1) d').trace
          data := (executeWorkflowLoop u e rest (i + 1) d').data
          ending := (executeWorkflowLoop u e rest (i + 1) d').ending }) ∧
    (e i = .exitRun →
      executeWorkflowLoop u e (step :: rest) i d =
        { trace := [⟨i, .failedExit⟩], data := d', ending := .abortedOnError i }) := by
  have hif : (if step.requiresUserInput then u i else Decision.continueStep)
      = Decision.continueStep := by
    rcases hdec with h | h
    · simp [h]
    · by_cases hr : step.requiresUserInput <;> simp [hr, h]
  refine ⟨rfl, ?_, ?_⟩ <;> intro he <;>
    simp [executeWorkflowLoop, hskip, hif, hexec, he]

/-- Claim C4 witness: a concrete failing step with the exit decision ends
the run at step 0 with the mutated data kept. -/
theorem c4_witness :
    errorPromptDefaultChoice = .exitRun ∧
    executeWorkflowLoop userContinue errExit [stepFailing, stepOk] 0 0 =
      { trace := [⟨0, .failedExit⟩], data := 10, ending := .abortedOnError 0 } := by
  have h := c4_step_failure_decision userContinue errExit stepFailing [stepOk] 0 0 10
    "添加文件失败" rfl (Or.inl rfl) rfl
  exact ⟨h.1, h.2.2 rfl⟩

/-- Claim C7: a step whose skip predicate holds on the current data is
bypassed — the loop records it as skipped, its action never runs (the data
passed on is unchanged), the confirmation prompt is not consulted (the
user's decision at that cursor is irrelevant to the run) and execution
continues with the next step; a step with no skip predicate is never
recorded as automatically skipped. -/
theorem c7_skip_predicate_policy {σ : Type} (u : Nat → Decision) (e : Nat → ErrDecision)
    (step : WorkflowStep σ) (rest : List (WorkflowStep σ)) (i : Nat) (d : σ) :
    (∀ p, step.shouldSkip = some p → p d = true →
      (executeWorkflowLoop u e (step :: rest) i d =
        { trace := ⟨i, .skippedPred⟩ :: (executeWorkflowLoop u e rest (i + 1) d).trace
          data := (executeWorkflowLoop u e rest (i + 1) d).data
          ending := (executeWorkflowLoop u e rest (i + 1) d).ending } ∧
       ∀ dec, executeWorkflowLoop (Function.update u i dec) e (step :: rest) i d
          = executeWorkflowLoop u e (step :: rest) i d)) ∧
    (step.shouldSkip = none →
      ∀ ev, (executeWorkflowLoop u e (step :: rest) i d).trace.head? = some ev →
        ev.index = i ∧ ev.status ≠ .skippedPred) := by
  constructor
  · intro p hp hpd
    have hskip : shouldSkipEval step d = true := by simp [shouldSkipEval, hp, hpd]
    constructor
    · simp [executeWorkflowLoop, hskip]
    · intro dec
      have hcg : executeWorkflowLoop (Function.update u i dec) e rest (i + 1) d
          = executeWorkflowLoop u e rest (i + 1) d :=
        executeWorkflowLoop_congr_user _ u e rest (i + 1) d
          (fun j hj => Function.update_noteq (by omega) dec u)
      simp [executeWorkflowLoop, hskip, hcg]
  · intro hnone ev hev
    have hskip : shouldSkipEval step d = false := by simp [shouldSkipEval, hnone]
    rcases hdec : (if step.requiresUserInput then u i else Decision.continueStep) with _ | _ | _
    · rcases hex : step.execute d with ⟨d', m⟩
      rcases m with _ | msg
      · simp only [executeWorkflowLoop, hskip, Bool.false_eq_true, if_false, hdec, hex,
          List.head?_cons, Option.some.injEq] at hev
        rw [← hev]
        exact ⟨rfl, by simp⟩
      · rcases he : e i with _ | _
        · simp only [executeWorkflowLoop, hskip, Bool.false_eq_true, if_false, hdec, hex, he,
            List.head?_cons, Option.some.injEq] at hev
          rw [← hev]
          exact ⟨rfl, by simp⟩
        · simp only [executeWorkflowLoop, hskip, Bool.false_eq_true, if_false, hdec, hex, he,
            List.head?_cons, Option.some.injEq] at hev
          rw [← hev]
          exact ⟨rfl, by simp⟩
    · simp only [executeWorkflowLoop, hskip, Bool.false_eq_true, if_false, hdec,
        List.head?_cons, Option.some.injEq] at hev
      rw [← hev]
      exact ⟨rfl, by simp⟩
    · simp only [executeWorkflowLoop, hskip, Bool.false_eq_true, if_false, hdec,
        List.head?_cons, Option.some.injEq] at hev
      rw [← hev]
      exact ⟨rfl, by simp⟩

/-- Claim C7 witness: a concrete run where the skip predicate holds on the
store bypasses the step with unchanged data. -/
theorem c7_witness :
    executeWorkflowLoop userContinue errExit [stepSkippable, stepOk] 0 5 =
      { trace := ⟨0, .skippedPred⟩ :: (executeWorkflowLoop userContinue errExit [stepOk] 1 5).trace
        data := (executeWorkflowLoop userContinue errExit [stepOk] 1 5).data
        ending := (executeWorkflowLoop userContinue errExit [stepOk] 1 5).ending } :=
  ((c7_skip_predicate_policy userContinue errExit stepSkippable [stepOk] 0 5).1
    (fun d => d != 0) rfl (by decide)).1

/-- Claim C9: a run aborted through the post-failure exit decision leaves
the loop via `break` and still reaches the terminal completion line — its
`completionMessageShown` flag is `true`, identical to that of a fully
completed run, so the two outcomes are indistinguishable apart from earlier
log text. -/
theorem c9_aborted_matches_completed {σ τ : Type} (u : Nat → Decision) (e : Nat → ErrDecision)
    (steps : List (WorkflowStep σ)) (d : σ) (u' : Nat → Decision) (e' : Nat → ErrDecision)
    (steps' : List (WorkflowStep τ)) (d' : τ) (k : Nat)
    (h1 : (executeWorkflow u e steps d).result.ending = .abortedOnError k)
    (h2 : (executeWorkflow u' e' steps' d').result.ending = .completedAll) :
    (executeWorkflow u e steps d).completionMessageShown = true ∧
    (executeWorkflow u e steps d).completionMessageShown
      = (executeWorkflow u' e' steps' d').completionMessageShown := by
  constructor
  · simp only [executeWorkflow] at h1 ⊢
    rw [h1]
  · simp only [executeWorkflow] at h1 h2 ⊢
    rw [h1, h2]

/-- Claim C9 witness: a run aborted after its only step failed shows the
completion message exactly like a run that completed normally. -/
theorem c9_witness :
    (executeWorkflow userContinue errExit [stepFailing] (0 : Nat)).completionMessageShown = true ∧
    (executeWorkflow userContinue errExit [stepFailing] (0 : Nat)).completionMessageShown
      = (executeWorkflow userContinue errContinue [stepOk] (0 : Nat)).completionMessageShown :=
  c9_aborted_matches_completed userContinue errExit [stepFailing] 0
    userContinue errContinue [stepOk] 0 0 (by decide) (by decide)

/-- Claim C3: plan resolution drops every step id that the registry does
not know (the surviving resolved steps keep their plan order, as dropping
an unknown id leaves the rest of the resolution unchanged), and when every
id of the plan is unknown — in particular when the plan's only entry is
unknown — `processInput` ends immediately with the no-plan outcome: no
context is built and no step action runs. -/
theorem c3_unknown_ids_dropped {σ : Type} (reg : Registry σ) :
    (∀ s ids₁ ids₂ badId, getStepById reg badId = none →
      (generatePlan reg (ids₁ ++ badId :: ids₂) s).steps
        = (generatePlan reg (ids₁ ++ ids₂) s).steps) ∧
    (∀ planResult u e input d₀,
      (∀ idv ∈ planResult.1, getStepById reg idv = none) →
      processInput reg planResult u e input d₀ = ProcessOutcome.noPlan) := by
  constructor
  · intro s ids₁ ids₂ badId hbad
    rw [generatePlan_steps, generatePlan_steps]
    simp [hbad]
  · intro planResult u e input d₀ hall
    have hempty := generatePlan_empty_of_all_unknown reg planResult.1 planResult.2 hall
    simp [processInput, hempty]

/-- Claim C3 witness: in an empty registry the single unknown id
`"git-nonexistent"` is dropped and the run ends with no plan. -/
theorem c3_witness :
    processInput ([] : Registry Nat) (["git-nonexistent"], "未知步骤") userContinue errExit
      "帮我执行" 0 = ProcessOutcome.noPlan :=
  (c3_unknown_ids_dropped ([] : Registry Nat)).2 (["git-nonexistent"], "未知步骤")
    userContinue errExit "帮我执行" 0 (by intro idv h; cases h <;> simp_all [getStepById, mapGet])

/-- Claim C5: the local pattern classifier answers `high` whenever any
high-risk pattern occurs in the command (regardless of medium matches —
in particular a command containing both a high and a medium pattern is
`high`), else `medium` whenever any medium-risk pattern occurs, else
`low`; and the three scenario commands classify as high, medium and low,
in both local classifiers. -/
theorem c5_local_classification (c : String) :
    (highRiskPatterns.any (fun p => containsSub c p) = true →
      (validateGitCommandLocally c).level = .high ∧
      (analyzeCommandRiskLocally c).riskLevel = .high) ∧
    (highRiskPatterns.any (fun p => containsSub c p) = false →
      mediumRiskPatterns.any (fun p => containsSub c p) = true →
      (validateGitCommandLocally c).level = .medium ∧
      (analyzeCommandRiskLocally c).riskLevel = .medium) ∧
    (highRiskPatterns.any (fun p => containsSub c p) = false →
      mediumRiskPatterns.any (fun p => containsSub c p) = false →
      (validateGitCommandLocally c).level = .low ∧
      (analyzeCommandRiskLocally c).riskLevel = .low) ∧
    (validateGitCommandLocally "reset --hard HEAD~3").level = .high ∧
    (validateGitCommandLocally "checkout -b feature/x").level = .medium ∧
    (validateGitCommandLocally "status").level = .low ∧
    (analyzeCommandRiskLocally "reset --hard HEAD~3").riskLevel = .high ∧
    (analyzeCommandRiskLocally "checkout -b feature/x").riskLevel = .medium ∧
    (analyzeCommandRiskLocally "status").riskLevel = .low := by
  refine ⟨?_, ?_, ?_, by decide, by decide, by decide, by decide, by decide, by decide⟩
  · intro hh
    have hv : (validateGitCommandLocally c).level = .high := by
      simp [validateGitCommandLocally, hh]
    exact ⟨hv, by rw [← localLevels_agree c, hv]⟩
  · intro hh hm
    have hv : (validateGitCommandLocally c).level = .medium := by
      simp [validateGitCommandLocally, hh, hm]
    exact ⟨hv, by rw [← localLevels_agree c, hv]⟩
  · intro hh hm
    have hv : (validateGitCommandLocally c).level = .low := by
      simp [validateGitCommandLocally, hh, hm]
    exact ⟨hv, by rw [← localLevels_agree c, hv]⟩

/-- Claim C5 witness: `"reset --hard"` contains the high pattern
`"reset --hard"` and the medium pattern `"reset"`, and classifies high. -/
theorem c5_witness :
    (validateGitCommandLocally "reset --hard").level = .high ∧
    (analyzeCommandRiskLocally "reset --hard").riskLevel = .high :=
  (c5_local_classification "reset --hard").1 (by decide)

/-- Claim C6: risk validation always produces a well-formed level among
low/medium/high; with no API key it is exactly the local pattern policy,
and whenever the remote model call fails the returned level is the one the
deterministic local rules compute — the fallback never errors (the
embedding is a total function for every oracle). -/
theorem c6_risk_fallback_total (env : LLMEnv) (c : String) :
    ((validateGitCommand env c).level = .low ∨ (validateGitCommand env c).level = .medium ∨
      (validateGitCommand env c).level = .high) ∧
    (env.apiKeyPresent = false → validateGitCommand env c = validateGitCommandLocally c) ∧
    (env.remoteRisk = none →
      (validateGitCommand env c).level = (analyzeCommandRiskLocally c).riskLevel) := by
  refine ⟨?_, ?_, ?_⟩
  · rcases h : (validateGitCommand env c).level with _ | _ | _
    · exact Or.inl rfl
    · exact Or.inr (Or.inl rfl)
    · exact Or.inr (Or.inr rfl)
  · intro h
    simp [validateGitCommand, h]
  · intro h
    by_cases hk : env.apiKeyPresent
    · simp [validateGitCommand, analyzeCommandRisk, hk, h]
    · have hk' : env.apiKeyPresent = false := Bool.of_not_eq_true hk
      rw [show validateGitCommand env c = validateGitCommandLocally c by
        simp [validateGitCommand, hk']]
      exact localLevels_agree c

/-- Claim C6 witness: with the LLM unavailable the validator equals the
local policy, and with an available LLM whose call fails the level equals
the local analyzer's level. -/
theorem c6_witness :
    validateGitCommand ⟨false, none⟩ "status" = validateGitCommandLocally "status" ∧
    (validateGitCommand ⟨true, none⟩ "rebase main").level
      = (analyzeCommandRiskLocally "rebase main").riskLevel :=
  ⟨(c6_risk_fallback_total ⟨false, none⟩ "status").2.1 rfl,
   (c6_risk_fallback_total ⟨true, none⟩ "rebase main").2.2 rfl⟩

/-- Claim C8: the verification code generated before a high-risk command
is the decimal representation of a fresh number in `[1000, 9999]`; the
challenge accepts a retyped value only when it equals the code exactly —
any non-matching value is rejected (the prompt re-asks) and if the user
never types the exact code the challenge never passes, so the command
cannot run. -/
theorem c8_high_risk_challenge :
    (∀ r, r < 9000 → ∃ n, 1000 ≤ n ∧ n ≤ 9999 ∧ verificationCode r = Nat.repr n) ∧
    (∀ code attempts accepted,
      highRiskChallenge code attempts = some accepted → accepted = code) ∧
    (∀ code attempts a, a ≠ code → highRiskChallenge code attempts ≠ some a) ∧
    (∀ code attempts, code ∉ attempts → highRiskChallenge code attempts = none) := by
  have hsound : ∀ code attempts accepted,
      highRiskChallenge code attempts = some accepted → accepted = code := by
    intro code attempts accepted h
    have hv := promptValidate_sound (verificationValidate code) attempts accepted h
    simpa [verificationValidate] using hv
  refine ⟨?_, hsound, ?_, ?_⟩
  · intro r hr
    exact ⟨1000 + r, by omega, by omega, rfl⟩
  · intro code attempts a hne hsome
    exact hne (hsound code attempts a hsome)
  · intro code attempts hmem
    refine promptValidate_none (verificationValidate code) attempts ?_
    intro a ha
    by_cases hac : a = code
    · exact absurd (hac ▸ ha) hmem
    · simpa [verificationValidate] using hac

/-- Claim C8 witness: a concrete generated code lies in `[1000, 9999]` and
a user that never retypes the code never passes the challenge. -/
theorem c8_witness :
    (∃ n, 1000 ≤ n ∧ n ≤ 9999 ∧ verificationCode 4242 = Nat.repr n) ∧
    highRiskChallenge "5242" ["1234", "9999"] = none :=
  ⟨c8_high_risk_challenge.1 4242 (by decide),
   c8_high_risk_challenge.2.2.2 "5242" ["1234", "9999"] (by decide)⟩

theorem commitOutput_ne (m : String) : ("已提交，消息: \"" ++ m ++ "\"") ≠ "" := by
  intro h
  have := congrArg String.length h
  simp [String.length_append] at this
  exact absurd this.2 (by decide)

/-- Claim C10: `executeGitCommand` is total over every oracle — each failed
external call yields `success = false` with an error message rather than a
throw; every successful result carries a non-empty output (a placeholder is
substituted for empty command output); and a non-git command writing only
to stderr is reported as a failure carrying that stderr. -/
theorem c10_executeGitCommand_total (env : ExecEnv) (c : String) :
    ((executeGitCommand env c).success = true →
      ∃ out, (executeGitCommand env c).output = some out ∧ out ≠ "") ∧
    ((executeGitCommand env c).success = false →
      (executeGitCommand env c).error.isSome = true) ∧
    (∀ stdout stderr, c.startsWith "git " = false →
      env.execCmd c = .ok (stdout, stderr) → stderr ≠ "" → stdout = "" →
      executeGitCommand env c = { success := false, output := none, error := some stderr }) := by
  have hshape : ((executeGitCommand env c).success = true ∧
      ∃ out, (executeGitCommand env c).output = some out ∧ out ≠ "") ∨
      ((executeGitCommand env c).success = false ∧
       (executeGitCommand env c).error.isSome = true) := by
    simp only [executeGitCommand]
    split
    · split
      · rename_i res heq
        split at heq
        · split at heq
          · split at heq
            · split at heq
              · split at heq
                · cases heq
                  refine Or.inl ⟨rfl, ?_⟩
                  split
                  · exact ⟨_, rfl, commitOutput_ne _⟩
                  · rename_i hres
                    exact ⟨_, rfl, hres⟩
                · simp at heq
              · simp at heq
            · simp at heq
          · simp at heq
        · simp at heq
      · split
        · refine Or.inl ⟨rfl, ?_⟩
          split
          · exact ⟨_, rfl, by decide⟩
          · rename_i hres
            exact ⟨_, rfl, hres⟩
        · exact Or.inr ⟨rfl, rfl⟩
    · split
      · split
        · exact Or.inr ⟨rfl, rfl⟩
        · refine Or.inl ⟨rfl, ?_⟩
          split
          · exact ⟨_, rfl, by decide⟩
          · rename_i hout
            exact ⟨_, rfl, hout⟩
      · exact Or.inr ⟨rfl, rfl⟩
  refine ⟨?_, ?_, ?_⟩
  · intro hs
    rcases hshape with ⟨-, hout⟩ | ⟨hf, -⟩
    · exact hout
    · rw [hs] at hf
      cases hf
  · intro hs
    rcases hshape with ⟨ht, -⟩ | ⟨-, herr⟩
    · rw [hs] at ht
      cases ht
    · exact herr
  · intro stdout stderr hg hexec hne hempty
    subst hempty
    simp [executeGitCommand, hg, hexec, hne]

/-- Claim C10 witness: a non-git command whose child process writes only to
stderr is reported as a failure with that stderr as the error. -/
theorem c10_witness :
    executeGitCommand execEnvStderr "ls" =
      { success := false, output := none, error := some "命令未找到" } :=
  (c10_executeGitCommand_total execEnvStderr "ls").2.2 "" "命令未找到" (by decide) rfl
    (by decide) rfl
